import Mathlib

/-!
Verification of the lalia chat-orchestration library core against its
specification.  The definitions below are a shallow embedding of the Python
sources (`src/lalia/...`); each definition's doc comment names the source
construct it embeds.  Theorems settle the spec's testable properties.
-/

namespace Lalia

/-! ### Tags and tag patterns (`lalia/chat/messages/tags.py`) -/

/-- `Tag`: immutable key/value pair.  The presentation colour is cosmetic and
not used by any of the verified operations, so it is omitted. -/
structure Tag where
  key : String
  value : String
deriving DecidableEq, Repr

/-- An anchored regular-expression fragment, as used through `re.match` (which
anchors at the start of the string).  Only the pattern shapes the library
actually builds are modelled: a literal (which `re.match` accepts on any
string having it as a prefix) and the universal pattern `.*`. -/
inductive Rx where
  | lit (s : String)
  | any
deriving DecidableEq, Repr

/-- `re.match(pattern, s)` truthiness for the modelled fragment (the literal
comparison runs on the underlying character lists). -/
def Rx.matches : Rx → String → Bool
  | .lit p, s => p.data.isPrefixOf s.data
  | .any, _ => true

/-- `TagPattern`: a pair of compiled patterns over key and value. -/
structure TagPattern where
  key : Rx
  value : Rx
deriving DecidableEq, Repr

/-- The memoised predicate derived from a `TagPattern`:
`any(key.match(t.key) and value.match(t.value) for t in tags)`
(`PredicateRegistry.derive_predicate`, tags.py lines 111-124). -/
def TagPattern.matchesTags (p : TagPattern) (tags : List Tag) : Bool :=
  tags.any fun t => p.key.matches t.key && p.value.matches t.value

/-! ### Fold state and folds (`lalia/chat/messages/buffer.py`, local classes)

The message-buffer module `buffer.py` carries its own `FoldState`, `Fold` and
`Folds` classes (distinct from the newer `folds.py`); the embedding below
follows `buffer.py`, the module the verified claims cite. -/

/-- `FoldState` (buffer.py lines 25-30): a plain `Enum` with members
`UNFOLDED = 0` and `FOLDED = 1`. -/
inductive FoldState where
  | unfolded
  | folded
deriving DecidableEq, Repr

/-- `FoldState.__invert__`. -/
def FoldState.inv : FoldState → FoldState
  | .unfolded => .folded
  | .folded => .unfolded

/-- Python truthiness of a `FoldState` member.  `FoldState` in buffer.py
derives from plain `Enum` (not `IntEnum`) and defines no `__bool__`, so every
member is truthy regardless of its numeric value. -/
def FoldState.pyTruthy : FoldState → Bool := fun _ => true

/-- Identity key of a predicate object.  Python compares predicates by object
identity: predicates derived from a `Tag` or a `TagPattern` are memoised in
the process-wide registry (one canonical object per value), a composed
`_Or`-of-patterns object such as `DEFAULT_FOLD_TAGS` is a single stable
object, a caller-supplied callable is its own identity, and every predicate
derived from a *set* of tags or patterns is a freshly allocated closure
(`_derive_tag_predicate`, buffer.py lines 42-55). -/
inductive PredKey where
  | tag (t : Tag)
  | pattern (p : TagPattern)
  | orPatterns (ps : List TagPattern)
  | callable (id : Nat)
  | fresh (id : Nat)
deriving DecidableEq, Repr

/-- `Fold` (buffer.py lines 33-39): a predicate plus a state.  The embedding
stores both the identity key (used for `==`, hence for `list.remove` and
`in`) and the predicate's semantics (used for evaluation). -/
structure Fold where
  key : PredKey
  sem : List Tag → Bool
  state : FoldState

/-- `Fold.__invert__`. -/
def Fold.inv (f : Fold) : Fold :=
  { f with state := f.state.inv }

/-- `Fold.__eq__` as generated by the dataclass decorator: fieldwise equality
of `(predicate, state)`, where predicate equality is object identity,
modelled by the key. -/
def Fold.beq (f g : Fold) : Bool :=
  f.key == g.key && f.state == g.state

/-- The argument shapes accepted by `_derive_tag_predicate` in buffer.py:
a single tag, a single pattern, a composed or-of-patterns predicate object,
a set of tags, a set of patterns, or a raw callable (carrying an identity). -/
inductive TagsArg where
  | tag (t : Tag)
  | pattern (p : TagPattern)
  | orPatterns (ps : List TagPattern)
  | tagSet (ts : List Tag)
  | patternSet (ps : List TagPattern)
  | callable (id : Nat) (f : List Tag → Bool)

/-- Whether deriving a predicate from the argument yields a canonical
(memoised or identity-stable) object.  Set-shaped arguments allocate a fresh
closure on each call. -/
def TagsArg.canonical : TagsArg → Bool
  | .tagSet _ => false
  | .patternSet _ => false
  | _ => true

/-- `_derive_tag_predicate` (buffer.py lines 42-55), threading a fresh-object
counter for the closures allocated by the set cases.  Tag case:
`predicate_registry.derive_predicate(tag)` is the membership test; pattern
case: the match-any test; set case: `all(derive_predicate(t)(tags) for t in
set)` wrapped in a fresh lambda; callable case: the object itself. -/
def deriveTagPredicate (arg : TagsArg) (fresh : Nat) :
    (PredKey × (List Tag → Bool)) × Nat :=
  match arg with
  | .tag t => ((.tag t, fun tags => tags.contains t), fresh)
  | .pattern p => ((.pattern p, fun tags => p.matchesTags tags), fresh)
  | .orPatterns ps =>
      ((.orPatterns ps, fun tags => ps.any fun p => p.matchesTags tags), fresh)
  | .tagSet ts =>
      ((.fresh fresh, fun tags => ts.all fun t => tags.contains t), fresh + 1)
  | .patternSet ps =>
      ((.fresh fresh, fun tags => ps.all fun p => p.matchesTags tags), fresh + 1)
  | .callable id f => ((.callable id, f), fresh)

/-- A message as the buffer observes it: an identity plus its tag set.  The
remaining payload (role, content, timestamp) plays no role in the buffer's
transactional or fold logic. -/
structure Msg where
  id : Nat
  tags : List Tag
deriving DecidableEq, Repr

/-- `DEFAULT_FOLD_TAGS = TagPattern("function", ".*") | TagPattern("error", ".*")`
(buffer.py line 20): a single composed predicate object. -/
def defaultFoldTags : TagsArg :=
  .orPatterns [⟨.lit "function", .any⟩, ⟨.lit "error", .any⟩]

/-- Membership in a Python list of `Fold`s (`in`, via `Fold.__eq__`). -/
def containsFold (stack : List Fold) (g : Fold) : Bool :=
  stack.any fun f => f.beq g

/-- `list.remove`: drop the first element comparing equal. -/
def removeFirstFold : List Fold → Fold → List Fold
  | [], _ => []
  | f :: rest, g => if f.beq g then rest else f :: removeFirstFold rest g

/-- The fold-stack walk of `Folds.get_fold_state` (buffer.py lines 134-142):
newest to oldest, first fold whose predicate matches decides; the default
fold sits at the bottom of the stack itself, and an empty walk falls back to
`UNFOLDED`. -/
def foldStateOfStack (stack : List Fold) (m : Msg) : FoldState :=
  match stack.reverse.find? (fun f => f.sem m.tags) with
  | some f => f.state
  | none => .unfolded

/-- `Folds` (buffer.py lines 58-203): parallel fold-state arrays for the two
segments, the fold stack `_folds`, the stored default tags, and the
fresh-closure counter that models Python object allocation. -/
structure Folds where
  messages : List FoldState
  pending : List FoldState
  stack : List Fold
  defaultTags : TagsArg
  fresh : Nat

/-- `Folds._default_folds`: a fold with the derived default predicate and
state `FOLDED`. -/
def mkDefaultFold (defaultTags : TagsArg) (fresh : Nat) : Fold × Nat :=
  let ((k, sem), fresh') := deriveTagPredicate defaultTags fresh
  (⟨k, sem, .folded⟩, fresh')

/-- `Folds.get_fold_state`. -/
def Folds.getFoldState (f : Folds) (m : Msg) : FoldState :=
  foldStateOfStack f.stack m

/-- `Folds.from_messages` followed by `__post_init__` (buffer.py lines
66-90): the per-segment states are computed from the default predicate alone
and the stack is initialised to the single default fold.  The source derives
the default predicate once per message inside the comprehensions; as the
derived semantics depend only on the argument, one derivation is used here. -/
def Folds.fromMessages (messages pending : List Msg) (defaultTags : TagsArg)
    (fresh : Nat) : Folds :=
  let ((_, dsem), f1) := deriveTagPredicate defaultTags fresh
  let (dfold, f2) := mkDefaultFold defaultTags f1
  { messages := messages.map fun m =>
      if dsem m.tags then FoldState.folded else FoldState.unfolded
    pending := pending.map fun m =>
      if dsem m.tags then FoldState.folded else FoldState.unfolded
    stack := [dfold]
    defaultTags := defaultTags
    fresh := f2 }

/-- `Folds.add` (buffer.py lines 99-100). -/
def Folds.add (f : Folds) (m : Msg) : Folds :=
  { f with pending := f.pending ++ [f.getFoldState m] }

/-- `zip(xs, ys, strict=True)`: raises `ValueError` when the lengths differ. -/
def zipStrict : List α → List β → Except String (List (α × β))
  | [], [] => .ok []
  | a :: as_, b :: bs => do
      let rest ← zipStrict as_ bs
      pure ((a, b) :: rest)
  | _, _ => .error "zip() argument lengths differ (strict=True)"

/-- `Folds.apply` (buffer.py lines 102-113): zip each segment strictly with
its fold states and keep the messages for which `not fold` holds.  `fold` is
a plain-`Enum` member, hence always truthy, so the guard `not fold` is always
false (see `FoldState.pyTruthy`). -/
def Folds.apply (f : Folds) (messages pending : List Msg) :
    Except String (List Msg × List Msg) := do
  let zm ← zipStrict messages f.messages
  let zp ← zipStrict pending f.pending
  pure
    (zm.filterMap fun x => if !x.2.pyTruthy then some x.1 else none,
     zp.filterMap fun x => if !x.2.pyTruthy then some x.1 else none)

/-- `Folds.commit` (buffer.py lines 115-117). -/
def Folds.commit (f : Folds) : Folds :=
  { f with messages := f.messages ++ f.pending, pending := [] }

/-- `Folds.revert` (buffer.py lines 166-168): move the state span back to the
front of pending and truncate the committed states. -/
def Folds.revert (f : Folds) (start stop : Nat) : Folds :=
  { f with
    pending := (f.messages.drop start).take (stop - start) ++ f.pending
    messages := f.messages.take start }

/-- `Folds.rollback` (buffer.py lines 170-171). -/
def Folds.rollback (f : Folds) : Folds :=
  { f with pending := [] }

/-- `Folds.update` (buffer.py lines 198-203): recompute both state arrays
from the stack. -/
def Folds.update (f : Folds) (messages pending : List Msg) : Folds :=
  { f with
    messages := messages.map f.getFoldState
    pending := pending.map f.getFoldState }

/-- `Folds.fold` (buffer.py lines 144-164): `None` resets the stack to the
default fold; otherwise a `FOLDED` fold is appended (no de-duplication in
this module).  Both paths recompute the state arrays. -/
def Folds.fold (f : Folds) (tags : Option TagsArg) (messages pending : List Msg) :
    Folds :=
  let f' :=
    match tags with
    | none =>
        let (d, fr) := mkDefaultFold f.defaultTags f.fresh
        { f with stack := [d], fresh := fr }
    | some arg =>
        let ((k, sem), fr) := deriveTagPredicate arg f.fresh
        { f with stack := f.stack ++ [Fold.mk k sem .folded], fresh := fr }
  f'.update messages pending

/-- `Folds.unfold` (buffer.py lines 173-196): `None` resets to the default
fold; otherwise build an `UNFOLDED` fold, and if its inverse is on the stack
remove that inverse (first occurrence, per `list.remove`), else append. -/
def Folds.unfold (f : Folds) (tags : Option TagsArg) (messages pending : List Msg) :
    Folds :=
  let f' :=
    match tags with
    | none =>
        let (d, fr) := mkDefaultFold f.defaultTags f.fresh
        { f with stack := [d], fresh := fr }
    | some arg =>
        let ((k, sem), fr) := deriveTagPredicate arg f.fresh
        let u : Fold := ⟨k, sem, .unfolded⟩
        if containsFold f.stack u.inv then
          { f with stack := removeFirstFold f.stack u.inv, fresh := fr }
        else
          { f with stack := f.stack ++ [u], fresh := fr }
  f'.update messages pending

/-! ### The message buffer (`lalia/chat/messages/buffer.py`, lines 206-348) -/

/-- `MessageBuffer`: committed and pending message segments, the fold
metadata, and the transactional-bounds stack (last element is the top). -/
structure MessageBuffer where
  messages : List Msg
  pending : List Msg
  folds : Folds
  bounds : List (Nat × Nat)

/-- `MessageBuffer.__init__` (buffer.py lines 207-224). -/
def MessageBuffer.init (messages pending : List Msg) (defaultTags : TagsArg) :
    MessageBuffer :=
  { messages := messages
    pending := pending
    folds := Folds.fromMessages messages pending defaultTags 0
    bounds := [] }

/-- `MessageBuffer.add_message` (buffer.py lines 247-251). -/
def MessageBuffer.addMessage (b : MessageBuffer) (m : Msg) : MessageBuffer :=
  { b with pending := b.pending ++ [m], folds := b.folds.add m }

/-- `MessageBuffer.commit` (buffer.py lines 263-269): push the bound, splice
pending into committed, clear pending, and move the fold states. -/
def MessageBuffer.commit (b : MessageBuffer) : MessageBuffer :=
  { b with
    bounds := b.bounds ++ [(b.messages.length, b.messages.length + b.pending.length)]
    messages := b.messages ++ b.pending
    pending := []
    folds := b.folds.commit }

/-- `MessageBuffer.rollback` (buffer.py lines 340-342). -/
def MessageBuffer.rollback (b : MessageBuffer) : MessageBuffer :=
  { b with pending := [], folds := b.folds.rollback }

/-- `MessageBuffer.revert` (buffer.py lines 344-348), embedded exactly as
written: the popped span is prepended to pending and the fold states are
moved, but `self.messages` is left untouched — the method body contains no
`self.messages = self.messages[:start]` counterpart to `Folds.revert`. -/
def MessageBuffer.revert (b : MessageBuffer) : MessageBuffer :=
  match b.bounds.getLast? with
  | none => b
  | some (start, stop) =>
      { b with
        bounds := b.bounds.dropLast
        pending := (b.messages.drop start).take (stop - start) ++ b.pending
        folds := b.folds.revert start stop }

/-- `MessageBuffer.fold` (buffer.py lines 318-327). -/
def MessageBuffer.fold (b : MessageBuffer) (tags : Option TagsArg) : MessageBuffer :=
  { b with folds := b.folds.fold tags b.messages b.pending }

/-- `MessageBuffer.unfold` (buffer.py lines 329-338). -/
def MessageBuffer.unfold (b : MessageBuffer) (tags : Option TagsArg) : MessageBuffer :=
  { b with folds := b.folds.unfold tags b.messages b.pending }

/-- `MessageBuffer.__iter__` (buffer.py lines 229-231): apply the folds and
chain the two filtered segments. -/
def MessageBuffer.iter (b : MessageBuffer) : Except String (List Msg) := do
  let (ms, ps) ← b.folds.apply b.messages b.pending
  pure (ms ++ ps)

/-- `MessageBuffer.__len__` (buffer.py lines 233-234). -/
def MessageBuffer.length (b : MessageBuffer) : Nat :=
  (b.messages ++ b.pending).length

/-- `MessageBuffer.filter` (buffer.py lines 283-316): derive the tag
predicate, filter both segments by `tag_predicate(m.tags) and predicate(m)`,
and build a *new* buffer whose folds are recomputed from the default fold. -/
def MessageBuffer.filter (b : MessageBuffer) (predicate : Msg → Bool)
    (tags : TagsArg) : MessageBuffer :=
  let ((_, tagPredicate), _) := deriveTagPredicate tags b.folds.fresh
  let keep := fun (m : Msg) => tagPredicate m.tags && predicate m
  MessageBuffer.init (b.messages.filter keep) (b.pending.filter keep)
    b.folds.defaultTags

/-- The state of the receiver after a call to `MessageBuffer.filter`: the
method body (buffer.py lines 283-316) assigns only local variables and
returns a fresh `MessageBuffer`, so the receiver is unchanged. -/
def MessageBuffer.filterSelfAfter (b : MessageBuffer) (_predicate : Msg → Bool)
    (_tags : TagsArg) : MessageBuffer := b

/-! ### Token counter and truncation (`lalia/llm/budgeting/token_counter.py`)

The byte-pair tokenizer (`tiktoken`) is external; the embedding is
parameterised by `enc : String → Nat`, the token count of a string, and by
`render`, the TypeScript-style rendering of a function namespace used by
`calculate_tokens_in_functions` (the `OpenAIFunctionFormatter` is outside
the verified core). -/

/-- The `Overhead` constants (token_counter.py lines 27-36). -/
def Overhead.messageName : Int := -1
def Overhead.messageInstance : Int := 4
def Overhead.systemRole : Int := -4
def Overhead.functionRole : Int := -2
def Overhead.functionCall : Int := 3
def Overhead.functionName : Int := 4
def Overhead.functionDefinition : Int := 8
def Overhead.noneFunctionCall : Int := 1
def Overhead.completion : Int := 3

/-- A model-produced function call as the counter sees it: the callee name
and the `json.dumps(arguments, default=str)` rendering of the argument
mapping — the counter only ever consumes that serialized string
(`_calculate_tokens_for_function_arguments`, token_counter.py lines 39-43). -/
structure TFunctionCall where
  name : String
  argumentsJson : String
deriving DecidableEq, Repr

/-- A message as the token counter and truncation see it, discriminated by
role (`lalia/chat/messages/messages.py`): system, user and function messages
carry a string content (which may be empty), assistant content is optional. -/
inductive TMessage where
  | system (content : String) (tags : List Tag)
  | user (content : String) (tags : List Tag)
  | assistant (content : Option String) (functionCall : Option TFunctionCall)
      (tags : List Tag)
  | function (name : String) (content : String) (tags : List Tag)
deriving DecidableEq, Repr

/-- `message.content` for each role. -/
def TMessage.content : TMessage → Option String
  | .system c _ => some c
  | .user c _ => some c
  | .assistant c _ _ => c
  | .function _ c _ => some c

/-- `message.tags` (`_get_message_tags`, token_counter.py lines 237-243). -/
def TMessage.tags : TMessage → List Tag
  | .system _ ts => ts
  | .user _ ts => ts
  | .assistant _ _ ts => ts
  | .function _ _ ts => ts

/-- `get_tokens` (token_counter.py lines 108-113):
`(count_tokens_in_string(string) + overhead) if string else 0` — both `None`
and the empty string are falsy, so they contribute nothing, overhead
included. -/
def get_tokens (enc : String → Nat) (string : Option String) (overhead : Int) :
    Int :=
  match string with
  | none => 0
  | some s => if s = "" then 0 else (enc s : Int) + overhead

/-- The role-specific contributions of `_calculate_tokens_in_message`
(token_counter.py lines 46-72).  The Python `match` takes the *first*
matching case: `case FunctionMessage(name=name)` matches every function
message, so the later `case FunctionMessage()` that would add
`FUNCTION_ROLE` is unreachable; an assistant message without a function call
matches no case. -/
def roleTokens (enc : String → Nat) : TMessage → Int
  | .system _ _ => Overhead.systemRole
  | .function name _ _ => get_tokens enc (some name) Overhead.messageName
  | .assistant _ (some fc) _ =>
      get_tokens enc (some fc.name) 0
        + get_tokens enc (some fc.argumentsJson) 0
        + Overhead.functionCall
  | _ => 0

/-- `_calculate_tokens_in_message` (token_counter.py lines 46-72): the
role-specific parts plus `get_tokens(content, MESSAGE_INSTANCE)`. -/
def calcTokensInMessage (enc : String → Nat) (m : TMessage) : Int :=
  roleTokens enc m + get_tokens enc m.content Overhead.messageInstance

/-- `calculate_tokens_in_messages` (token_counter.py lines 116-122):
`0` on empty input, otherwise the per-message sum plus `COMPLETION`. -/
def calculate_tokens_in_messages (enc : String → Nat) (messages : List TMessage) :
    Int :=
  if messages.isEmpty then 0
  else (messages.map (calcTokensInMessage enc)).sum + Overhead.completion

/-- A registered function, as the budgeting layer sees it: only its formatted
namespace rendering is ever consumed, so the schema machinery is reduced to
the name. -/
structure FunctionDecl where
  name : String
deriving DecidableEq, Repr

/-- `calculate_tokens_in_functions` (token_counter.py lines 125-144): `0` on
empty input, otherwise `get_tokens` of the formatted function namespace. -/
def calculate_tokens_in_functions (enc : String → Nat)
    (render : List FunctionDecl → String) (functions : List FunctionDecl) : Int :=
  if functions.isEmpty then 0 else get_tokens enc (some (render functions)) 0

/-- `FunctionCallDirective` (`lalia/llm/llm.py`): `auto`, `none` or a named
function. -/
inductive FunctionCallDirective where
  | auto
  | noneDirective
  | named (name : String)
deriving DecidableEq, Repr

/-- `calculate_tokens` (token_counter.py lines 147-168): message tokens, plus
function tokens when functions are supplied, plus the directive adjustment
(nothing for `auto`, `NONE_FUNCTION_CALL` for `none`, and the function-name
overhead for a specific function — written `function_call.name` in the
source). -/
def calculate_tokens (enc : String → Nat) (render : List FunctionDecl → String)
    (messages : List TMessage) (functions : List FunctionDecl)
    (function_call : FunctionCallDirective) : Int :=
  calculate_tokens_in_messages enc messages
    + (if functions.isEmpty then 0
       else calculate_tokens_in_functions enc render functions)
    + (match function_call with
       | .auto => 0
       | .noneDirective => Overhead.noneFunctionCall
       | .named n => get_tokens enc (some n) Overhead.functionName)

/-- The `step 3` loop of `truncate_messages_or_buffer` (token_counter.py
lines 305-316): walk the eligible `(index, message)` pairs newest first,
include a pair while the running total stays within the budget, and `break`
at the first pair that does not fit.  The source accumulates bare indices;
the accepted pairs are kept here (their indices are extracted by the caller)
so the accounting lemmas can speak about the accepted messages. -/
def selectRetained (enc : String → Nat) (maxUsable : Int) :
    Int → List (Nat × TMessage) → List (Nat × TMessage)
  | _, [] => []
  | tokens, (i, m) :: rest =>
      let mt := calcTokensInMessage enc m
      if tokens + mt ≤ maxUsable then
        (i, m) :: selectRetained enc maxUsable (tokens + mt) rest
      else []

/-- Step 1 of `truncate_messages_or_buffer` (token_counter.py lines
281-288): the indices of messages whose tags satisfy the exclusion
predicate (`excluded_indices`, over `enumerate(messages)`). -/
def excludedIndices (messages : List TMessage) (excludeP : List Tag → Bool) :
    List Nat :=
  ((List.enumFrom 0 messages).filter fun q => excludeP q.2.tags).map Prod.fst

/-- Step 2 of `truncate_messages_or_buffer` (token_counter.py lines
290-297): `base_tokens` — the completion buffer, plus the token count of the
excluded messages when there are any, plus the token count of the functions
when there are any.  (`[messages[i] for i in excluded_indices]` holds
exactly the messages satisfying the predicate; the sum is order
independent.) -/
def baseTokens (enc : String → Nat) (render : List FunctionDecl → String)
    (messages : List TMessage) (completion_buffer : Int)
    (functions : List FunctionDecl) (excludeP : List Tag → Bool) : Int :=
  completion_buffer
    + (if (excludedIndices messages excludeP).isEmpty then 0
       else calculate_tokens_in_messages enc
         (messages.filter fun m => excludeP m.tags))
    + (if functions.isEmpty then 0
       else calculate_tokens_in_functions enc render functions)

/-- The pairs accepted by the step-3 walk: the eligible (non-excluded)
enumerated messages, newest first, fed to `selectRetained`. -/
def retainedPairs (enc : String → Nat) (maxUsable base : Int)
    (messages : List TMessage) (excludeP : List Tag → Bool) :
    List (Nat × TMessage) :=
  selectRetained enc maxUsable base
    (((List.enumFrom 0 messages).filter fun q => !excludeP q.2.tags).reverse)

/-- Step 3's `truncated_indices`. -/
def retainedIndices (enc : String → Nat) (maxUsable base : Int)
    (messages : List TMessage) (excludeP : List Tag → Bool) : List Nat :=
  (retainedPairs enc maxUsable base messages excludeP).map Prod.fst

/-- `truncate_messages_or_buffer` (token_counter.py lines 246-321).  Step 1
partitions the enumerated messages by the exclusion predicate; step 2 sums
the base load (completion buffer, excluded messages, functions); the failsafe
raises `ValueError` when the base exceeds `max_usable_tokens =
token_threshold - completion_buffer`; step 3 walks the eligible messages
newest to oldest; step 4 keeps the union of retained and excluded indices in
original order. -/
def truncate_messages_or_buffer (enc : String → Nat)
    (render : List FunctionDecl → String) (messages : List TMessage)
    (token_threshold completion_buffer : Int) (functions : List FunctionDecl)
    (excludeP : List Tag → Bool) : Except String (List TMessage) :=
  let maxUsable := token_threshold - completion_buffer
  let base := baseTokens enc render messages completion_buffer functions excludeP
  if base > maxUsable then
    .error "Base tokens exceed the available tokens. Aborting truncation."
  else
    let keep := retainedIndices enc maxUsable base messages excludeP
      ++ excludedIndices messages excludeP
    .ok (((List.enumFrom 0 messages).filter fun q => keep.contains q.1).map
      Prod.snd)

/-! ### Finish reasons and function-call results
(`lalia/chat/finish_reason.py`, `lalia/functions/types.py`,
`lalia/functions/__init__.py`) -/

/-- `FinishReason` (finish_reason.py lines 4-13). -/
inductive FinishReason where
  | stop
  | length
  | functionCall
  | contentFilter
  | delegate
  | null
  | functionCallFailure
  | functionCallError
  | failure
deriving DecidableEq, Repr

/-- `Error` (types.py lines 53-55). -/
structure FnError where
  message : String
deriving DecidableEq, Repr

/-- An opaque Python value as it flows through function execution.  `Option`
encodes presence: Python `None` is `Option.none`. -/
inductive PyValue where
  | vstr (s : String)
  | vother (id : Nat)
deriving DecidableEq, Repr

/-- `FunctionCallResult` (types.py lines 252-262): name, arguments, optional
value, optional error, and a finish reason that *defaults to `DELEGATE`* —
the dataclass declares no validator that inspects or coerces any field. -/
structure FunctionCallResult where
  name : String
  arguments : List (String × PyValue)
  value : Option PyValue := none
  error : Option FnError := none
  finishReason : FinishReason := .delegate
deriving DecidableEq, Repr

/-- What a registered callable may hand back to `execute_function_call`
(the shapes its `match result` distinguishes): a full `FunctionCallResult`,
an anonymous `Result` wrapper, or a plain value (possibly `None`), of which
plain strings are treated specially. -/
inductive FuncReturn where
  | fcr (r : FunctionCallResult)
  | res (value : Option PyValue) (error : Option FnError)
      (finishReason : FinishReason)
  | plain (v : Option PyValue)
deriving DecidableEq, Repr

/-- The outcome of invoking the callable under `validate_call`: either a
`TypeError`/`ValidationError` (argument validation) or a returned value. -/
inductive CallOutcome where
  | raises (msg : String)
  | returns (r : FuncReturn)
deriving DecidableEq, Repr

/-- Python `str.startswith` (computed on the character lists). -/
def pyStartsWith (s prefixStr : String) : Bool :=
  prefixStr.data.isPrefixOf s.data

/-- Python `str.removeprefix` (computed on the character lists). -/
def pyRemovePrefix (prefixStr s : String) : String :=
  if prefixStr.data.isPrefixOf s.data then ⟨s.data.drop prefixStr.data.length⟩
  else s

/-- The whitespace characters `str.strip` removes. -/
def pyIsSpace (c : Char) : Bool :=
  c = ' ' || c = '\t' || c = '\n' || c = '\r' || c = '\x0b' || c = '\x0c'

/-- Python `str.strip()`: remove leading and trailing whitespace. -/
def pyStrip (s : String) : String :=
  ⟨((s.data.dropWhile pyIsSpace).reverse.dropWhile pyIsSpace).reverse⟩

/-- `execute_function_call` (functions/__init__.py lines 117-165).  A
validation failure becomes an error result; a returned `FunctionCallResult`
passes through; a returned `Result` has its fields copied; a returned plain
string starting with `"Error:"` becomes an error result with the prefix
removed and the remainder stripped, any other string a success; every other
value (including `None`) is stored as the value.  No branch touches
`finish_reason` beyond the dataclass default or the wrapper passthrough. -/
def execute_function_call (name : String) (arguments : List (String × PyValue))
    (outcome : CallOutcome) : FunctionCallResult :=
  match outcome with
  | .raises e =>
      { name := name, arguments := arguments,
        error := some ⟨"Invalid arguments. Please check the provided arguments: "
          ++ e⟩ }
  | .returns (.fcr r) => r
  | .returns (.res value error finishReason) =>
      { name := name, arguments := arguments, value := value, error := error,
        finishReason := finishReason }
  | .returns (.plain (some (.vstr s))) =>
      if pyStartsWith s "Error:" then
        { name := name, arguments := arguments,
          error := some ⟨pyStrip (pyRemovePrefix "Error:" s)⟩ }
      else
        { name := name, arguments := arguments, value := some (.vstr s) }
  | .returns (.plain v) =>
      { name := name, arguments := arguments, value := v }

/-! ### The session loop (`lalia/chat/session.py`, lines 499-514)

`Session.complete_flow` runs `for _ in range(self.max_iterations)`, calling
`self.complete` each pass; a completion whose finish reason is `STOP` is
returned at once, anything else continues the loop, and when the range is
exhausted `self._complete_failure()` is called and its completion returned.
The LLM/dispatcher pipeline behind `self.complete` is abstracted as an
oracle giving the completion produced in iteration `i`; exceptional paths
(which `_handle_exception` re-raises) are outside this model of the normal
returns. -/

/-- A completion: the returned message (by identity) and its finish reason
(`lalia/chat/completions.py`). -/
structure Completion where
  messageId : Nat
  finishReason : FinishReason
deriving DecidableEq, Repr

/-- The outcome of `complete_flow` together with the observable loop
accounting: the returned completion, the number of `self.complete` calls
performed, and the number of `_complete_failure` invocations. -/
structure FlowResult where
  completion : Completion
  completeCalls : Nat
  failureCalls : Nat
deriving DecidableEq, Repr

/-- The `for` loop of `complete_flow`: `i` is the index of the next
iteration, the second argument the remaining range.  Returns the completion
and the number of calls made when a `STOP` completion appears. -/
def completeFlowLoop (complete : Nat → Completion) :
    Nat → Nat → Option (Completion × Nat)
  | _, 0 => none
  | i, Nat.succ rest =>
      let c := complete i
      match c.finishReason with
      | .stop => some (c, i + 1)
      | _ => completeFlowLoop complete (i + 1) rest

/-- `Session.complete_flow` (session.py lines 499-514). -/
def complete_flow (complete : Nat → Completion) (failureCompletion : Completion)
    (maxIterations : Nat) : FlowResult :=
  match completeFlowLoop complete 0 maxIterations with
  | some (c, calls) => ⟨c, calls, 0⟩
  | none => ⟨failureCompletion, maxIterations, 1⟩

/-- The semantics a tags argument derives to; the derived predicate's meaning
does not depend on the allocation counter (only its identity key does). -/
def TagsArg.sem (arg : TagsArg) : List Tag → Bool :=
  (deriveTagPredicate arg 0).1.2

/-! ## Theorems -/

theorem deriveTagPredicate_sem (arg : TagsArg) (n : Nat) :
    (deriveTagPredicate arg n).1.2 = arg.sem := by
  cases arg <;> rfl

theorem deriveTagPredicate_canonical_counter (arg : TagsArg)
    (h : arg.canonical = true) (n : Nat) : (deriveTagPredicate arg n).2 = n := by
  cases arg <;> simp_all [TagsArg.canonical, deriveTagPredicate]

theorem deriveTagPredicate_canonical_key (arg : TagsArg)
    (h : arg.canonical = true) (n n' : Nat) :
    (deriveTagPredicate arg n).1 = (deriveTagPredicate arg n').1 := by
  cases arg <;> simp_all [TagsArg.canonical, deriveTagPredicate]

theorem containsFold_append (s t : List Fold) (g : Fold) :
    containsFold (s ++ t) g = (containsFold s g || containsFold t g) := by
  simp [containsFold, List.any_append]

theorem removeFirstFold_append_singleton (s : List Fold) (F g : Fold)
    (hs : containsFold s g = false) (hF : F.beq g = true) :
    removeFirstFold (s ++ [F]) g = s := by
  induction s with
  | nil => simp [removeFirstFold, hF]
  | cons a s ih =>
      simp only [containsFold, List.any_cons, Bool.or_eq_false_iff] at hs
      simp [List.cons_append, removeFirstFold, hs.1, ih hs.2]

/-- **C1.** `B.add(m); B.commit(); B.revert()` does *not* restore the empty
pre-add state: `MessageBuffer.revert` (buffer.py lines 344-348) never
truncates `self.messages`, so the reverted span stays in the committed
segment while also being copied into pending, the fold-state array for the
committed segment (which `Folds.revert` does truncate) falls out of sync
with it, and iterating the buffer afterwards raises the strict-zip
`ValueError`.  Evaluation of the embedded code at the failing input. -/
theorem revert_leaves_committed_span :
    (let b0 := MessageBuffer.init [] [] defaultFoldTags
     let m : Msg := ⟨0, []⟩
     let b1 := ((b0.addMessage m).commit).revert
     b0.messages = [] ∧ b0.pending = [] ∧ b0.folds.messages = [] ∧
       b1.messages = [m] ∧ b1.pending = [m] ∧ b1.bounds = [] ∧
       b1.folds.messages = [] ∧ b1.folds.pending = [FoldState.unfolded] ∧
       b1.iter = Except.error "zip() argument lengths differ (strict=True)") :=
  ⟨rfl, rfl, rfl, rfl, rfl, rfl, rfl, rfl, rfl⟩

/-- **C2.** Iterating a buffer yields nothing at all, not the `Unfolded`
messages: `Folds.apply` (buffer.py lines 102-113) guards with `not fold`,
and a plain-`Enum` member is always truthy, so the guard never holds.  Here
a buffer holds one message whose fold state is `Unfolded`, `len` counts it,
yet iteration yields the empty sequence.  Evaluation of the embedded code at
the failing input. -/
theorem iter_yields_nothing :
    (let b := MessageBuffer.init [⟨0, []⟩] [] defaultFoldTags
     b.length = 1 ∧ b.folds.messages = [FoldState.unfolded] ∧
       b.iter = Except.ok []) :=
  ⟨rfl, rfl, rfl⟩

/-- A successful pass of the `complete_flow` loop returns a `STOP`
completion. -/
theorem completeFlowLoop_stop (complete : Nat → Completion) :
    ∀ (n i : Nat) (c : Completion) (calls : Nat),
      completeFlowLoop complete i n = some (c, calls) →
      c.finishReason = FinishReason.stop := by
  intro n
  induction n with
  | zero => intro i c calls h; simp [completeFlowLoop] at h
  | succ n ih =>
      intro i c calls h
      unfold completeFlowLoop at h
      rcases hfin : (complete i).finishReason <;> simp [hfin] at h
      case stop => rcases h with ⟨h1, _⟩; rw [← h1, hfin]
      all_goals exact ih (i + 1) c calls h

/-- The loop of `complete_flow` never runs past its range: the number of
`complete` calls it makes is bounded by the iteration budget. -/
theorem completeFlowLoop_calls_le (complete : Nat → Completion) :
    ∀ (n i : Nat) (c : Completion) (calls : Nat),
      completeFlowLoop complete i n = some (c, calls) → calls ≤ i + n := by
  intro n
  induction n with
  | zero => intro i c calls h; simp [completeFlowLoop] at h
  | succ n ih =>
      intro i c calls h
      unfold completeFlowLoop at h
      rcases hfin : (complete i).finishReason <;> simp [hfin] at h
      case stop => omega
      all_goals exact le_trans (ih (i + 1) c calls h) (by omega)

/-- **C3.** For every completion oracle (the LLM/dispatcher pipeline behind
`self.complete`) and every iteration cap, `complete_flow` either returns a
completion whose finish reason is `STOP` without invoking
`_complete_failure`, or invokes `_complete_failure` exactly once and returns
its completion; and the generate/handle loop performs at most
`max_iterations` calls to `complete`. -/
theorem complete_flow_terminates (complete : Nat → Completion)
    (failureCompletion : Completion) (maxIterations : Nat) :
    (((complete_flow complete failureCompletion maxIterations).completion.finishReason
          = FinishReason.stop ∧
        (complete_flow complete failureCompletion maxIterations).failureCalls = 0) ∨
      ((complete_flow complete failureCompletion maxIterations).failureCalls = 1 ∧
        (complete_flow complete failureCompletion maxIterations).completion
          = failureCompletion)) ∧
    (complete_flow complete failureCompletion maxIterations).completeCalls
      ≤ maxIterations := by
  unfold complete_flow
  rcases hloop : completeFlowLoop complete 0 maxIterations with _ | ⟨c, calls⟩
  · exact ⟨Or.inr ⟨rfl, rfl⟩, le_refl _⟩
  · refine ⟨Or.inl ⟨?_, rfl⟩, ?_⟩
    · exact completeFlowLoop_stop complete maxIterations 0 c calls hloop
    · simpa using completeFlowLoop_calls_le complete maxIterations 0 c calls hloop

/-- **C7, counterexample.** `fold(t); unfold(t)` does not restore the fold
states when `t` is a *set* of tags: `_derive_tag_predicate` wraps a set in a
freshly allocated closure on every call, so the inverse built inside
`unfold` is never `==` to the entry `fold` pushed, and a contradicting
`Unfolded` entry is stacked instead.  A message matched by the default fold
(state `Folded`) ends up `Unfolded` after the pair. -/
theorem fold_unfold_set_tags_changes_state :
    (let b := MessageBuffer.init [⟨0, [⟨"error", "x"⟩]⟩] [] defaultFoldTags
     let t : TagsArg := .tagSet [⟨"error", "x"⟩]
     b.folds.messages = [FoldState.folded] ∧
       ((b.fold (some t)).unfold (some t)).folds.messages
         = [FoldState.unfolded]) := by
  exact ⟨by decide, by decide⟩

/-- The `Folds`-level round trip: pushing a `Folded` entry and then
unfolding the same canonical tags argument pops exactly that entry (it is
the newest fold with that predicate and state), so the recomputed states
coincide with a recomputation against the original stack. -/
theorem folds_fold_unfold (f : Folds) (arg : TagsArg) (msgs pnd : List Msg)
    (hcanon : arg.canonical = true)
    (hstack : containsFold f.stack
      ⟨(deriveTagPredicate arg f.fresh).1.1,
        (deriveTagPredicate arg f.fresh).1.2, FoldState.folded⟩ = false) :
    ((f.fold (some arg) msgs pnd).unfold (some arg) msgs pnd).messages
        = msgs.map (foldStateOfStack f.stack) ∧
      ((f.fold (some arg) msgs pnd).unfold (some arg) msgs pnd).pending
        = pnd.map (foldStateOfStack f.stack) := by
  rcases he : deriveTagPredicate arg f.fresh with ⟨⟨k, sem⟩, fr⟩
  have hfr : fr = f.fresh := by
    have h := deriveTagPredicate_canonical_counter arg hcanon f.fresh
    rw [he] at h
    exact h
  subst hfr
  rw [he] at hstack
  simp only at hstack
  have hF : Fold.beq (Fold.mk k sem FoldState.folded) (Fold.mk k sem FoldState.folded)
      = true := by
    simp [Fold.beq]
  have hcond : containsFold (f.stack ++ [Fold.mk k sem FoldState.folded])
      (Fold.mk k sem FoldState.folded) = true := by
    rw [containsFold_append]
    simp [containsFold, hF]
  have hrem := removeFirstFold_append_singleton f.stack _ _ hstack hF
  simp only [Folds.fold, Folds.unfold, he, Folds.update, Folds.getFoldState,
    Fold.inv, FoldState.inv, hcond, hrem, if_true, Bool.or_true]
  exact ⟨rfl, rfl⟩

/-- **C7, amended.** `B.fold(t); B.unfold(t)` leaves every per-message fold
state unchanged *provided* the derived predicate is a canonical (memoised or
identity-stable) object — a single `Tag`, `TagPattern`, composed predicate
or raw callable, but not a set, whose derivation allocates a fresh closure —
no `Folded` entry with the same predicate is already on the stack (otherwise
`list.remove` pops that older entry instead of the one `fold` pushed), and
the stored state arrays are consistent with the stack. -/
theorem fold_unfold_restores_states (b : MessageBuffer) (arg : TagsArg)
    (hcanon : arg.canonical = true)
    (hwfm : b.folds.messages = b.messages.map (foldStateOfStack b.folds.stack))
    (hwfp : b.folds.pending = b.pending.map (foldStateOfStack b.folds.stack))
    (hstack : containsFold b.folds.stack
      ⟨(deriveTagPredicate arg b.folds.fresh).1.1,
        (deriveTagPredicate arg b.folds.fresh).1.2, FoldState.folded⟩ = false) :
    ((b.fold (some arg)).unfold (some arg)).folds.messages = b.folds.messages ∧
      ((b.fold (some arg)).unfold (some arg)).folds.pending = b.folds.pending := by
  have h := folds_fold_unfold b.folds arg b.messages b.pending hcanon hstack
  have hm : ((b.fold (some arg)).unfold (some arg)).folds
      = (b.folds.fold (some arg) b.messages b.pending).unfold (some arg)
          b.messages b.pending := rfl
  rw [hm, h.1, h.2] at *
  exact ⟨hwfm.symm, hwfp.symm⟩

/-- Witness for the amended C7 on a concrete buffer: one message tagged
`(error, x)` (folded by the default fold), folding and unfolding the
canonical tag `(a, b)` leaves the state array `[Folded]` unchanged. -/
theorem fold_unfold_restores_states_witness :
    (let b := MessageBuffer.init [⟨0, [⟨"error", "x"⟩]⟩] [] defaultFoldTags
     let t : TagsArg := .tag ⟨"a", "b"⟩
     ((b.fold (some t)).unfold (some t)).folds.messages = b.folds.messages ∧
       ((b.fold (some t)).unfold (some t)).folds.pending = b.folds.pending) :=
  fold_unfold_restores_states
    (MessageBuffer.init [⟨0, [⟨"error", "x"⟩]⟩] [] defaultFoldTags)
    (.tag ⟨"a", "b"⟩) (by decide) (by decide) (by decide) (by decide)

/-- **C8, counterexample.** `filter` does not mutate the buffer in place: the
method body assigns no attribute of `self` and returns a fresh buffer, so
after the call the original buffer still contains a message that fails the
predicate, contradicting the claim that `B` itself retains only matching
messages (the returned new buffer does). -/
theorem filter_does_not_mutate :
    (let b := MessageBuffer.init [⟨0, []⟩] [] defaultFoldTags
     let pred : Msg → Bool := fun m => decide (m.id = 1)
     let t : TagsArg := .pattern ⟨.any, .any⟩
     b.filterSelfAfter pred t = b ∧
       (b.filterSelfAfter pred t).messages = [⟨0, []⟩] ∧
       pred ⟨0, []⟩ = false ∧
       (b.filter pred t).messages = []) :=
  ⟨rfl, rfl, rfl, rfl⟩

/-- **C8, amended.** `B.filter(pred, tags)` leaves `B` unchanged and returns
a *new* buffer that contains exactly the messages of each segment for which
both the derived tag predicate and `pred` hold, in their original order,
with fold states recomputed from the default fold and an empty transactional
stack. -/
theorem filter_returns_filtered_buffer (b : MessageBuffer) (pred : Msg → Bool)
    (tags : TagsArg) :
    (b.filter pred tags).messages
        = b.messages.filter (fun m => tags.sem m.tags && pred m) ∧
      (b.filter pred tags).pending
        = b.pending.filter (fun m => tags.sem m.tags && pred m) ∧
      (b.filter pred tags).folds.messages
        = (b.messages.filter (fun m => tags.sem m.tags && pred m)).map
            (fun m => if b.folds.defaultTags.sem m.tags then FoldState.folded
              else FoldState.unfolded) ∧
      (b.filter pred tags).folds.pending
        = (b.pending.filter (fun m => tags.sem m.tags && pred m)).map
            (fun m => if b.folds.defaultTags.sem m.tags then FoldState.folded
              else FoldState.unfolded) ∧
      (b.filter pred tags).bounds = [] ∧
      b.filterSelfAfter pred tags = b := by
  rcases he : deriveTagPredicate tags b.folds.fresh with ⟨⟨k, sem⟩, fr⟩
  have hsem : sem = tags.sem := by
    have h := deriveTagPredicate_sem tags b.folds.fresh
    rw [he] at h
    exact h
  rcases hd : deriveTagPredicate b.folds.defaultTags 0 with ⟨⟨dk, dsem⟩, dfr⟩
  have hdsem : dsem = b.folds.defaultTags.sem := by
    have h := deriveTagPredicate_sem b.folds.defaultTags 0
    rw [hd] at h
    exact h
  simp only [MessageBuffer.filter, MessageBuffer.init, Folds.fromMessages, he, hd,
    MessageBuffer.filterSelfAfter, hsem, hdsem]
  refine ⟨?_, ?_, ?_, ?_, ?_, ?_⟩ <;> trivial

/-- **C9, counterexample.** A registered function returning the plain string
`"Error: boom"` yields a `FunctionCallResult` whose `error` is present but
whose `finish_reason` is the dataclass default `DELEGATE`: nothing in
`FunctionCallResult` or `execute_function_call` coerces the finish reason to
a function-call-error terminator. -/
theorem error_result_keeps_delegate :
    (let r := execute_function_call "foo" []
       (.returns (.plain (some (.vstr "Error: boom"))))
     r.error = some ⟨"boom"⟩ ∧ r.value = none ∧
       r.finishReason = FinishReason.delegate ∧
       FinishReason.delegate ≠ FinishReason.functionCallError ∧
       FinishReason.delegate ≠ FinishReason.functionCallFailure) := by
  refine ⟨?_, ?_, ?_, ?_, ?_⟩ <;> decide

/-- Outcomes that `execute_function_call` handles itself: an argument
validation failure, or a returned plain (non-`None`) value.  Returned
`Result`/`FunctionCallResult` wrappers pass through unchecked and a `None`
return produces a result with neither field present. -/
def CallOutcome.isDirect : CallOutcome → Bool
  | .raises _ => true
  | .returns (.plain (some _)) => true
  | _ => false

/-- **C9, amended.** Whenever the invocation either fails argument
validation or returns a plain non-`None` value, the produced
`FunctionCallResult` has exactly one of `value` and `error` present, and its
`finish_reason` is the default `DELEGATE` — never coerced to a
function-call-error terminator.  (For passthrough `Result` or
`FunctionCallResult` returns the fields are copied unvalidated, and a `None`
return yields a result with neither `value` nor `error`.) -/
theorem execute_result_exclusive_delegate (name : String)
    (arguments : List (String × PyValue)) (outcome : CallOutcome)
    (h : outcome.isDirect = true) :
    ((execute_function_call name arguments outcome).value.isSome = true ∧
        (execute_function_call name arguments outcome).error = none ∨
      (execute_function_call name arguments outcome).value = none ∧
        (execute_function_call name arguments outcome).error.isSome = true) ∧
    (execute_function_call name arguments outcome).finishReason
      = FinishReason.delegate := by
  match outcome with
  | .raises e =>
      exact ⟨Or.inr ⟨rfl, rfl⟩, rfl⟩
  | .returns (.plain (some (.vstr s))) =>
      by_cases hs : pyStartsWith s "Error:" = true
      · refine ⟨Or.inr ⟨?_, ?_⟩, ?_⟩ <;>
          simp [execute_function_call, hs]
      · refine ⟨Or.inl ⟨?_, ?_⟩, ?_⟩ <;>
          simp [execute_function_call, hs]
  | .returns (.plain (some (.vother i))) =>
      exact ⟨Or.inl ⟨rfl, rfl⟩, rfl⟩

/-- Witness for the amended C9 at two direct outcomes: an error-string
return and a validation failure. -/
theorem execute_result_exclusive_delegate_witness :
    ((execute_function_call "f" []
          (.returns (.plain (some (.vstr "Error: x"))))).value.isSome = true ∧
        (execute_function_call "f" []
          (.returns (.plain (some (.vstr "Error: x"))))).error = none ∨
      (execute_function_call "f" []
          (.returns (.plain (some (.vstr "Error: x"))))).value = none ∧
        (execute_function_call "f" []
          (.returns (.plain (some (.vstr "Error: x"))))).error.isSome = true) ∧
    (execute_function_call "f" []
        (.returns (.plain (some (.vstr "Error: x"))))).finishReason
      = FinishReason.delegate :=
  execute_result_exclusive_delegate "f" []
    (.returns (.plain (some (.vstr "Error: x")))) (by decide)

/-- **C10.** A registered function returning a plain string that starts with
`"Error:"` is converted into an error result: `value` is absent and `error`
carries the string with the prefix removed and surrounding whitespace
stripped; any other returned string becomes a success result carrying the
string unchanged. -/
theorem execute_error_string_convention (name : String)
    (arguments : List (String × PyValue)) (s : String) :
    (pyStartsWith s "Error:" = true →
      execute_function_call name arguments (.returns (.plain (some (.vstr s))))
        = { name := name, arguments := arguments,
            error := some ⟨pyStrip (pyRemovePrefix "Error:" s)⟩ }) ∧
    (pyStartsWith s "Error:" = false →
      execute_function_call name arguments (.returns (.plain (some (.vstr s))))
        = { name := name, arguments := arguments, value := some (.vstr s) }) := by
  constructor <;> intro h <;> simp [execute_function_call, h]

/-- Witness for C10 on concrete strings: `"Error:  boom "` is stripped to
`"boom"`, `"fine"` passes through as the value. -/
theorem execute_error_string_convention_witness :
    execute_function_call "f" [] (.returns (.plain (some (.vstr "Error:  boom "))))
        = { name := "f", arguments := [], error := some ⟨"boom"⟩ } ∧
      execute_function_call "f" [] (.returns (.plain (some (.vstr "fine"))))
        = { name := "f", arguments := [], value := some (.vstr "fine") } := by
  constructor
  · have h := (execute_error_string_convention "f" [] "Error:  boom ").1 (by decide)
    rw [h]
    decide
  · have h := (execute_error_string_convention "f" [] "fine").2 (by decide)
    rw [h]

/-- **C4.** The failsafe check of `truncate_messages_or_buffer` compares the
base load (which already contains the completion buffer) against
`max_usable_tokens = token_threshold - completion_buffer`, reserving the
completion buffer twice, while the code's own inline comment — and the
spec — say the failsafe fires when the base tokens exceed *the threshold*.
At this input the claimed base `completion_buffer + tokens(protected) +
tokens(functions) = 13` does not exceed the threshold `13`, and the single
protected message fits with zero slack, yet truncation aborts instead of
returning the message.  Evaluation of the embedded code at the failing
input. -/
theorem truncate_base_check_double_counts_buffer :
    (let enc : String → Nat := fun _ => 1
     let render : List FunctionDecl → String := fun _ => ""
     let protTag : Tag := ⟨"kind", "initial"⟩
     let m : TMessage := .user "x" [protTag]
     let excludeP : List Tag → Bool := fun tags => tags.contains protTag
     truncate_messages_or_buffer enc render [m] 13 5 [] excludeP
         = Except.error
             "Base tokens exceed the available tokens. Aborting truncation." ∧
       5 + calculate_tokens_in_messages enc [m]
           + calculate_tokens_in_functions enc render [] ≤ 13) := by
  exact ⟨rfl, by decide⟩

/-- **C6, counterexample.** `calculate_tokens` is not monotone under adding a
message: a system message with empty content contributes only the negative
`SYSTEM_ROLE` overhead (−4), because `get_tokens` returns `0` for a falsy
string, so appending it *decreases* the total. -/
theorem calculate_tokens_not_monotone :
    (let enc : String → Nat := fun _ => 1
     let render : List FunctionDecl → String := fun _ => ""
     calculate_tokens enc render [.user "x" [], .system "" []] [] .auto
       < calculate_tokens enc render [.user "x" []] [] .auto) := by
  decide

/-! Auxiliary list lemmas for the truncation proofs. -/

instance {ε α : Type _} [DecidableEq ε] [DecidableEq α] :
    DecidableEq (Except ε α)
  | .ok a, .ok b =>
      if h : a = b then .isTrue (h ▸ rfl)
      else .isFalse (fun hc => h (Except.ok.inj hc))
  | .error a, .error b =>
      if h : a = b then .isTrue (h ▸ rfl)
      else .isFalse (fun hc => h (Except.error.inj hc))
  | .ok _, .error _ => .isFalse Except.noConfusion
  | .error _, .ok _ => .isFalse Except.noConfusion

theorem contains_iff_mem {α : Type _} [DecidableEq α] (l : List α) (a : α) :
    l.contains a = true ↔ a ∈ l := by
  simp [List.contains, List.elem_iff]

theorem enumFrom_filter_snd {α : Type _} (f : α → Bool) :
    ∀ (n : Nat) (l : List α),
      ((List.enumFrom n l).filter (fun q => f q.2)).map Prod.snd = l.filter f := by
  intro n l
  induction l generalizing n with
  | nil => rfl
  | cons a l ih =>
      rw [show List.enumFrom n (a :: l) = (n, a) :: List.enumFrom (n + 1) l
          from rfl,
        List.filter_cons, List.filter_cons]
      by_cases h : f a = true
      · simp [h, ih (n + 1)]
      · simp [h, ih (n + 1)]

theorem enumFrom_filter_map_snd_sublist {α : Type _} (f : Nat × α → Bool) :
    ∀ (n : Nat) (l : List α),
      (((List.enumFrom n l).filter f).map Prod.snd).Sublist l := by
  intro n l
  induction l generalizing n with
  | nil => simp
  | cons a l ih =>
      rw [show List.enumFrom n (a :: l) = (n, a) :: List.enumFrom (n + 1) l
          from rfl,
        List.filter_cons]
      by_cases h : f (n, a) = true
      · simpa [h] using List.Sublist.cons₂ a (ih (n + 1))
      · simpa [h] using List.Sublist.cons a (ih (n + 1))

theorem enumFrom_map_fst {α : Type _} :
    ∀ (n : Nat) (l : List α),
      (List.enumFrom n l).map Prod.fst = List.range' n l.length := by
  intro n l
  induction l generalizing n with
  | nil => rfl
  | cons a l ih =>
      rw [show List.enumFrom n (a :: l) = (n, a) :: List.enumFrom (n + 1) l
          from rfl]
      simp [List.range', ih (n + 1)]

theorem enumFrom_nodup {α : Type _} (n : Nat) (l : List α) :
    (List.enumFrom n l).Nodup := by
  apply List.Nodup.of_map Prod.fst
  rw [enumFrom_map_fst]
  exact List.nodup_range' n l.length

theorem enumFrom_fst_inj {α : Type _} {n : Nat} {l : List α} {q q' : Nat × α}
    (hq : q ∈ List.enumFrom n l) (hq' : q' ∈ List.enumFrom n l)
    (h : q.1 = q'.1) : q = q' := by
  have hnd : ((List.enumFrom n l).map Prod.fst).Nodup := by
    rw [enumFrom_map_fst]
    exact List.nodup_range' n l.length
  exact List.inj_on_of_nodup_map hnd hq hq' h

theorem filter_map_general {α β : Type _} (f : α → β) (p : β → Bool) :
    ∀ (l : List α),
      (l.map f).filter p = (l.filter fun x => p (f x)).map f := by
  intro l
  induction l with
  | nil => rfl
  | cons a l ih =>
      rw [List.map_cons, List.filter_cons, List.filter_cons]
      by_cases h : p (f a) = true
      · simp [h, ih]
      · simp [h, ih]

theorem sum_map_filter_or {α : Type _} (h : α → Int) (f g : α → Bool) :
    ∀ (l : List α), (∀ x ∈ l, f x = true → g x = false) →
      ((l.filter fun x => f x || g x).map h).sum
        = ((l.filter f).map h).sum + ((l.filter g).map h).sum := by
  intro l
  induction l with
  | nil => simp
  | cons a l ih =>
      intro hd
      have hd' : ∀ x ∈ l, f x = true → g x = false := fun x hx =>
        hd x (List.Mem.tail a hx)
      have ihl := ih hd'
      rw [List.filter_cons, List.filter_cons, List.filter_cons]
      by_cases hf : f a = true
      · have hg : g a = false := hd a (List.Mem.head l) hf
        simp only [hf, hg, Bool.true_or, if_pos, if_neg, Bool.false_eq_true,
          not_false_iff, List.map_cons, List.sum_cons]
        rw [ihl]
        ring
      · by_cases hg : g a = true
        · simp only [hf, hg, Bool.or_true, if_pos, if_neg, Bool.false_eq_true,
            not_false_iff, List.map_cons, List.sum_cons]
          rw [ihl]
          ring
        · simp only [hf, hg, Bool.or_self, if_neg, Bool.false_eq_true,
            not_false_iff]
          simp only [Bool.false_or] at *
          rw [ihl]

/-- Boolean list membership via decidable equality (a fixed elaboration of
`decide (x ∈ l)`, so statements using it agree syntactically). -/
def memB {α : Type _} [DecidableEq α] (x : α) (l : List α) : Bool :=
  decide (x ∈ l)

theorem memB_true_iff {α : Type _} [DecidableEq α] (x : α) (l : List α) :
    memB x l = true ↔ x ∈ l := by
  simp [memB]

theorem filter_memB_perm {α : Type _} [DecidableEq α] {l s : List α}
    (hl : l.Nodup) (hs : s.Nodup) (hsub : ∀ x ∈ s, x ∈ l) :
    (l.filter fun x => memB x s).Perm s := by
  apply (List.perm_ext_iff_of_nodup (hl.filter _) hs).2
  intro a
  rw [List.mem_filter]
  constructor
  · intro ha
    exact (memB_true_iff a s).1 ha.2
  · intro ha
    exact ⟨hsub a ha, (memB_true_iff a s).2 ha⟩

theorem selectRetained_sublist (enc : String → Nat) (maxU : Int) :
    ∀ (pairs : List (Nat × TMessage)) (t : Int),
      (selectRetained enc maxU t pairs).Sublist pairs := by
  intro pairs
  induction pairs with
  | nil => intro t; simp [selectRetained]
  | cons q rest ih =>
      intro t
      rcases q with ⟨i, m⟩
      rw [show selectRetained enc maxU t ((i, m) :: rest)
          = if t + calcTokensInMessage enc m ≤ maxU then
              (i, m) :: selectRetained enc maxU (t + calcTokensInMessage enc m) rest
            else [] from rfl]
      by_cases h : t + calcTokensInMessage enc m ≤ maxU
      · simpa [h] using List.Sublist.cons₂ (i, m) (ih _)
      · simp [h]

theorem selectRetained_sum_le (enc : String → Nat) (maxU : Int) :
    ∀ (pairs : List (Nat × TMessage)) (t : Int), t ≤ maxU →
      t + ((selectRetained enc maxU t pairs).map
          (fun q => calcTokensInMessage enc q.2)).sum ≤ maxU := by
  intro pairs
  induction pairs with
  | nil => intro t ht; simpa [selectRetained] using ht
  | cons q rest ih =>
      intro t ht
      rcases q with ⟨i, m⟩
      rw [show selectRetained enc maxU t ((i, m) :: rest)
          = if t + calcTokensInMessage enc m ≤ maxU then
              (i, m) :: selectRetained enc maxU (t + calcTokensInMessage enc m) rest
            else [] from rfl]
      by_cases h : t + calcTokensInMessage enc m ≤ maxU
      · have hrec := ih (t + calcTokensInMessage enc m) h
        simp only [h, if_pos, List.map_cons, List.sum_cons]
        linarith
      · simpa [h] using ht

/-- Inversion of a successful `truncate_messages_or_buffer` run: the base
check passed and the output is the enumerated input filtered by the kept
indices. -/
theorem truncate_ok_inversion (enc : String → Nat)
    (render : List FunctionDecl → String) (messages : List TMessage)
    (thr cb : Int) (fns : List FunctionDecl) (excludeP : List Tag → Bool)
    (out : List TMessage)
    (h : truncate_messages_or_buffer enc render messages thr cb fns excludeP
      = .ok out) :
    baseTokens enc render messages cb fns excludeP ≤ thr - cb ∧
      out = ((List.enumFrom 0 messages).filter fun q =>
          (retainedIndices enc (thr - cb)
              (baseTokens enc render messages cb fns excludeP) messages excludeP
            ++ excludedIndices messages excludeP).contains q.1).map Prod.snd := by
  unfold truncate_messages_or_buffer at h
  simp only [] at h
  split at h
  · cases h
  · rename_i hbase
    rw [Except.ok.injEq] at h
    exact ⟨by omega, h.symm⟩

theorem retainedPairs_subset_enum (enc : String → Nat) (maxU base : Int)
    (messages : List TMessage) (excludeP : List Tag → Bool) :
    ∀ q ∈ retainedPairs enc maxU base messages excludeP,
      q ∈ List.enumFrom 0 messages := by
  intro q hq
  have h1 : q ∈ (((List.enumFrom 0 messages).filter
      fun q => !excludeP q.2.tags).reverse) :=
    (selectRetained_sublist enc maxU _ base).subset hq
  rw [List.mem_reverse] at h1
  exact (List.mem_filter.1 h1).1

theorem retainedPairs_not_excluded (enc : String → Nat) (maxU base : Int)
    (messages : List TMessage) (excludeP : List Tag → Bool) :
    ∀ q ∈ retainedPairs enc maxU base messages excludeP,
      excludeP q.2.tags = false := by
  intro q hq
  have h1 : q ∈ (((List.enumFrom 0 messages).filter
      fun q => !excludeP q.2.tags).reverse) :=
    (selectRetained_sublist enc maxU _ base).subset hq
  rw [List.mem_reverse] at h1
  have h2 := (List.mem_filter.1 h1).2
  simpa using h2

theorem retainedPairs_nodup (enc : String → Nat) (maxU base : Int)
    (messages : List TMessage) (excludeP : List Tag → Bool) :
    (retainedPairs enc maxU base messages excludeP).Nodup := by
  apply List.Nodup.sublist (selectRetained_sublist enc maxU _ base)
  rw [List.nodup_reverse]
  exact (enumFrom_nodup 0 messages).filter _

/-- Membership in the kept-index list, characterised on an enumerated pair:
the pair was either accepted by the step-3 walk or is protected. -/
theorem keep_contains_iff (enc : String → Nat) (maxU base : Int)
    (messages : List TMessage) (excludeP : List Tag → Bool)
    {q : Nat × TMessage} (hq : q ∈ List.enumFrom 0 messages) :
    ((retainedIndices enc maxU base messages excludeP
        ++ excludedIndices messages excludeP).contains q.1 = true)
      ↔ (q ∈ retainedPairs enc maxU base messages excludeP
          ∨ excludeP q.2.tags = true) := by
  rw [contains_iff_mem, List.mem_append]
  constructor
  · rintro (h1 | h2)
    · left
      rw [retainedIndices, List.mem_map] at h1
      obtain ⟨q', hq', hfst⟩ := h1
      have hq'enum := retainedPairs_subset_enum enc maxU base messages excludeP q' hq'
      have : q' = q := enumFrom_fst_inj hq'enum hq hfst
      rw [← this]
      exact hq'
    · right
      rw [excludedIndices, List.mem_map] at h2
      obtain ⟨q', hq', hfst⟩ := h2
      have hq'enum : q' ∈ List.enumFrom 0 messages := (List.mem_filter.1 hq').1
      have heq : q' = q := enumFrom_fst_inj hq'enum hq hfst
      rw [← heq]
      exact (List.mem_filter.1 hq').2
  · rintro (h1 | h2)
    · left
      rw [retainedIndices, List.mem_map]
      exact ⟨q, h1, rfl⟩
    · right
      rw [excludedIndices, List.mem_map]
      exact ⟨q, List.mem_filter.2 ⟨hq, h2⟩, rfl⟩

/-- A successful truncation's output is a subsequence of the input and,
filtered by the exclusion predicate, coincides with the filtered input. -/
theorem truncate_sublist_and_protected (enc : String → Nat)
    (render : List FunctionDecl → String) (messages : List TMessage)
    (thr cb : Int) (fns : List FunctionDecl) (excludeP : List Tag → Bool)
    (out : List TMessage)
    (h : truncate_messages_or_buffer enc render messages thr cb fns excludeP
      = .ok out) :
    out.Sublist messages ∧
      out.filter (fun m => excludeP m.tags)
        = messages.filter (fun m => excludeP m.tags) := by
  obtain ⟨hbase, hout⟩ :=
    truncate_ok_inversion enc render messages thr cb fns excludeP out h
  subst hout
  constructor
  · exact enumFrom_filter_map_snd_sublist _ 0 messages
  · rw [filter_map_general, List.filter_filter]
    have hcong : ∀ q ∈ List.enumFrom 0 messages,
        (excludeP (Prod.snd q).tags &&
            (retainedIndices enc (thr - cb)
                (baseTokens enc render messages cb fns excludeP) messages excludeP
              ++ excludedIndices messages excludeP).contains q.1)
          = excludeP (Prod.snd q).tags := by
      intro q hq
      by_cases hp : excludeP q.2.tags = true
      · have hk := (keep_contains_iff enc (thr - cb)
          (baseTokens enc render messages cb fns excludeP) messages excludeP
          hq).2 (Or.inr hp)
        rw [hp, hk]
        rfl
      · simp only [Bool.not_eq_true] at hp
        rw [hp]
        rfl
    rw [List.filter_congr hcong]
    exact enumFrom_filter_snd (fun m => excludeP m.tags) 0 messages

/-- **C5.** Whenever truncation succeeds, its output is a subsequence of the
input (original relative order preserved) and contains *exactly* the
protected messages among the input's messages: filtering both the output and
the input by the exclusion predicate gives the same list, so every protected
message survives in its original position relative to the other retained
messages and only non-protected messages are dropped. -/
theorem truncate_preserves_protected (enc : String → Nat)
    (render : List FunctionDecl → String) (messages : List TMessage)
    (thr cb : Int) (fns : List FunctionDecl) (excludeP : List Tag → Bool)
    (out : List TMessage)
    (h : truncate_messages_or_buffer enc render messages thr cb fns excludeP
      = .ok out) :
    out.Sublist messages ∧
      out.filter (fun m => excludeP m.tags)
        = messages.filter (fun m => excludeP m.tags) :=
  truncate_sublist_and_protected enc render messages thr cb fns excludeP out h

/-- Witness for C5: a buffer of one protected system message and three user
messages with threshold 14 drops the oldest user message, keeping the
protected message in place. -/
theorem truncate_preserves_protected_witness :
    (let msgs : List TMessage := [.system "s" [⟨"kind", "initial"⟩],
       .user "a" [], .user "b" [], .user "c" []]
     let exP : List Tag → Bool :=
       fun tags => tags.contains (⟨"kind", "initial"⟩ : Tag)
     let out : List TMessage := [.system "s" [⟨"kind", "initial"⟩],
       .user "b" [], .user "c" []]
     out.Sublist msgs ∧
       out.filter (fun m => exP m.tags) = msgs.filter (fun m => exP m.tags)) := by
  exact truncate_preserves_protected (fun _ => 1) (fun _ => "")
    [.system "s" [⟨"kind", "initial"⟩], .user "a" [], .user "b" [], .user "c" []]
    14 0 [] (fun tags => tags.contains (⟨"kind", "initial"⟩ : Tag))
    [.system "s" [⟨"kind", "initial"⟩], .user "b" [], .user "c" []] (by decide)

theorem get_tokens_zero_nonneg (enc : String → Nat) (s : Option String) :
    0 ≤ get_tokens enc s 0 := by
  match s with
  | none => exact le_refl 0
  | some str =>
      simp only [get_tokens]
      split
      · exact le_refl 0
      · omega

theorem calc_functions_nonneg (enc : String → Nat)
    (render : List FunctionDecl → String) (fns : List FunctionDecl) :
    0 ≤ calculate_tokens_in_functions enc render fns := by
  unfold calculate_tokens_in_functions
  split
  · exact le_refl 0
  · exact get_tokens_zero_nonneg enc _

theorem excludedIndices_length (messages : List TMessage)
    (excludeP : List Tag → Bool) :
    (excludedIndices messages excludeP).length
      = (messages.filter fun m => excludeP m.tags).length := by
  rw [excludedIndices, List.length_map,
    ← enumFrom_filter_snd (fun m => excludeP m.tags) 0 messages, List.length_map]

theorem excludedIndices_isEmpty_iff (messages : List TMessage)
    (excludeP : List Tag → Bool) :
    (excludedIndices messages excludeP).isEmpty
      = (messages.filter fun m => excludeP m.tags).isEmpty := by
  rw [Bool.eq_iff_iff, List.isEmpty_iff_length_eq_zero,
    List.isEmpty_iff_length_eq_zero, excludedIndices_length]

theorem baseTokens_eq (enc : String → Nat) (render : List FunctionDecl → String)
    (messages : List TMessage) (cb : Int) (fns : List FunctionDecl)
    (excludeP : List Tag → Bool) :
    baseTokens enc render messages cb fns excludeP
      = cb
        + (if (messages.filter fun m => excludeP m.tags).isEmpty then 0
           else ((messages.filter fun m => excludeP m.tags).map
               (calcTokensInMessage enc)).sum + Overhead.completion)
        + (if fns.isEmpty then 0
           else calculate_tokens_in_functions enc render fns) := by
  rw [baseTokens, excludedIndices_isEmpty_iff]
  by_cases hE : (messages.filter fun m => excludeP m.tags).isEmpty = true
  · rw [if_pos hE, if_pos hE]
  · rw [if_neg hE, if_neg hE, calculate_tokens_in_messages, if_neg hE]

/-- A successful truncation's output costs at most
`threshold - completion_buffer + COMPLETION` tokens: the step-3 walk keeps
the running total (base plus retained per-message costs) within
`max_usable_tokens`, and recounting the output re-adds only the single
`COMPLETION` overhead. -/
theorem truncate_ok_bound (enc : String → Nat)
    (render : List FunctionDecl → String) (messages : List TMessage)
    (thr cb : Int) (fns : List FunctionDecl) (excludeP : List Tag → Bool)
    (out : List TMessage) (hcb : 0 ≤ cb)
    (h : truncate_messages_or_buffer enc render messages thr cb fns excludeP
      = .ok out) :
    calculate_tokens_in_messages enc out ≤ thr - cb + Overhead.completion := by
  obtain ⟨hbase, hout⟩ :=
    truncate_ok_inversion enc render messages thr cb fns excludeP out h
  obtain ⟨hsub, hfeq⟩ :=
    truncate_sublist_and_protected enc render messages thr cb fns excludeP out h
  have h3 : Overhead.completion = 3 := rfl
  have hF : 0 ≤ (if fns.isEmpty then 0
      else calculate_tokens_in_functions enc render fns) := by
    split
    · exact le_refl 0
    · exact calc_functions_nonneg enc render fns
  by_cases hOE : out.isEmpty = true
  · -- empty output: the protected set is empty, so the base was cb + functions
    have hoe : out = [] := List.isEmpty_iff.1 hOE
    have hprotnil : (messages.filter fun m => excludeP m.tags) = [] := by
      rw [← hfeq, hoe]
      rfl
    rw [calculate_tokens_in_messages, if_pos hOE]
    rw [baseTokens_eq, hprotnil] at hbase
    simp only [List.isEmpty_nil, if_pos] at hbase
    omega
  · -- nonempty output: decompose its per-message sum
    rw [calculate_tokens_in_messages, if_neg hOE]
    have hmm : ∀ (X : List (Nat × TMessage)),
        (X.map Prod.snd).map (calcTokensInMessage enc)
          = X.map (fun q => calcTokensInMessage enc q.2) := by
      intro X
      rw [List.map_map]
      rfl
    have hKc : ∀ q ∈ List.enumFrom 0 messages,
        ((retainedIndices enc (thr - cb)
              (baseTokens enc render messages cb fns excludeP) messages excludeP
            ++ excludedIndices messages excludeP).contains q.1)
          = (memB q (retainedPairs enc (thr - cb)
              (baseTokens enc render messages cb fns excludeP) messages excludeP)
              || excludeP q.2.tags) := by
      intro q hq
      rw [Bool.eq_iff_iff,
        keep_contains_iff enc (thr - cb)
          (baseTokens enc render messages cb fns excludeP) messages excludeP hq]
      simp [memB]
    have hdisj : ∀ q ∈ List.enumFrom 0 messages,
        memB q (retainedPairs enc (thr - cb)
            (baseTokens enc render messages cb fns excludeP) messages excludeP)
          = true →
        excludeP q.2.tags = false := by
      intro q _ hm
      exact retainedPairs_not_excluded enc (thr - cb)
        (baseTokens enc render messages cb fns excludeP) messages excludeP q
        ((memB_true_iff _ _).1 hm)
    have hsplit := sum_map_filter_or (fun q => calcTokensInMessage enc q.2)
      (fun q => memB q (retainedPairs enc (thr - cb)
        (baseTokens enc render messages cb fns excludeP) messages excludeP))
      (fun q => excludeP q.2.tags) (List.enumFrom 0 messages) hdisj
    have hperm : ((List.enumFrom 0 messages).filter fun q =>
        memB q (retainedPairs enc (thr - cb)
          (baseTokens enc render messages cb fns excludeP) messages
          excludeP)).Perm
        (retainedPairs enc (thr - cb)
          (baseTokens enc render messages cb fns excludeP) messages excludeP) :=
      filter_memB_perm (enumFrom_nodup 0 messages)
        (retainedPairs_nodup enc (thr - cb)
          (baseTokens enc render messages cb fns excludeP) messages excludeP)
        (retainedPairs_subset_enum enc (thr - cb)
          (baseTokens enc render messages cb fns excludeP) messages excludeP)
    have hselsum := (hperm.map (fun q => calcTokensInMessage enc q.2)).sum_eq
    have hprotsum : (((List.enumFrom 0 messages).filter fun q =>
          excludeP q.2.tags).map (fun q => calcTokensInMessage enc q.2)).sum
        = ((messages.filter fun m => excludeP m.tags).map
            (calcTokensInMessage enc)).sum := by
      rw [← enumFrom_filter_snd (fun m => excludeP m.tags) 0 messages, hmm]
    have houtsum : (out.map (calcTokensInMessage enc)).sum
        = ((retainedPairs enc (thr - cb)
              (baseTokens enc render messages cb fns excludeP) messages
              excludeP).map (fun q => calcTokensInMessage enc q.2)).sum
          + ((messages.filter fun m => excludeP m.tags).map
              (calcTokensInMessage enc)).sum := by
      rw [hout, hmm, List.filter_congr hKc, hsplit, hselsum, hprotsum]
    have hsel_le := selectRetained_sum_le enc (thr - cb)
      (((List.enumFrom 0 messages).filter fun q => !excludeP q.2.tags).reverse)
      (baseTokens enc render messages cb fns excludeP) hbase
    have hbval := baseTokens_eq enc render messages cb fns excludeP
    have hretsel : (retainedPairs enc (thr - cb)
        (baseTokens enc render messages cb fns excludeP) messages excludeP)
        = selectRetained enc (thr - cb)
          (baseTokens enc render messages cb fns excludeP)
          (((List.enumFrom 0 messages).filter fun q =>
            !excludeP q.2.tags).reverse) := rfl
    rw [houtsum, hretsel]
    by_cases hprot : (messages.filter fun m => excludeP m.tags).isEmpty = true
    · have hpnil : (messages.filter fun m => excludeP m.tags) = [] :=
        List.isEmpty_iff.1 hprot
      rw [hpnil]
      rw [if_pos hprot] at hbval
      simp only [List.map_nil, List.sum_nil, add_zero]
      omega
    · rw [if_neg hprot] at hbval
      omega

/-- **C6, amended.** (a) `calculate_tokens` is monotone under appending a
message *whose per-message token count is nonnegative* (the count can be
negative, e.g. a system message with empty content contributes the bare
`SYSTEM_ROLE = -4`).  (b) When truncation does not fail, the token count of
its output is at most `threshold - completion_buffer + COMPLETION` — the
spec's bound `threshold - completion_buffer` holds only up to the single
`COMPLETION` overhead (3) that recounting the output re-adds. -/
theorem calculate_tokens_amended_bounds :
    (∀ (enc : String → Nat) (render : List FunctionDecl → String)
        (msgs : List TMessage) (fns : List FunctionDecl) (m : TMessage),
        0 ≤ calcTokensInMessage enc m →
        calculate_tokens enc render msgs fns .auto
          ≤ calculate_tokens enc render (msgs ++ [m]) fns .auto) ∧
    (∀ (enc : String → Nat) (render : List FunctionDecl → String)
        (msgs : List TMessage) (thr cb : Int) (fns : List FunctionDecl)
        (excludeP : List Tag → Bool) (out : List TMessage),
        0 ≤ cb →
        truncate_messages_or_buffer enc render msgs thr cb fns excludeP
          = .ok out →
        calculate_tokens_in_messages enc out
          ≤ thr - cb + Overhead.completion) := by
  constructor
  · intro enc render msgs fns m hm
    have hmsg : calculate_tokens_in_messages enc msgs
        ≤ calculate_tokens_in_messages enc (msgs ++ [m]) := by
      cases msgs with
      | nil =>
          rw [calculate_tokens_in_messages, calculate_tokens_in_messages]
          simp only [List.isEmpty_nil, if_pos, List.nil_append]
          have h3 : Overhead.completion = 3 := rfl
          simp only [List.isEmpty_cons, List.map_cons, List.map_nil,
            List.sum_cons, List.sum_nil]
          omega
      | cons a l =>
          rw [calculate_tokens_in_messages, calculate_tokens_in_messages]
          simp only [List.isEmpty_cons, List.cons_append, List.map_cons,
            List.sum_cons, List.map_append, List.sum_append, List.map_cons,
            List.map_nil, List.sum_cons, List.sum_nil, Bool.false_eq_true,
            if_false]
          omega
    rw [calculate_tokens, calculate_tokens]
    omega
  · intro enc render msgs thr cb fns excludeP out hcb h
    exact truncate_ok_bound enc render msgs thr cb fns excludeP out hcb h

/-- Witness for the amended C6: appending a user message (nonnegative
per-message count) to the empty list does not decrease the total, and the
output of the concrete threshold-14 truncation counts 14 ≤ 14 - 0 + 3
tokens. -/
theorem calculate_tokens_amended_bounds_witness :
    (calculate_tokens (fun _ => 1) (fun _ => "") [] [] .auto
        ≤ calculate_tokens (fun _ => 1) (fun _ => "")
            ([] ++ [.user "y" []]) [] .auto) ∧
      calculate_tokens_in_messages (fun _ => 1)
          [.system "s" [⟨"kind", "initial"⟩], .user "b" [], .user "c" []]
        ≤ 14 - 0 + Overhead.completion := by
  constructor
  · exact calculate_tokens_amended_bounds.1 (fun _ => 1) (fun _ => "") [] []
      (.user "y" []) (by decide)
  · exact calculate_tokens_amended_bounds.2 (fun _ => 1) (fun _ => "")
      [.system "s" [⟨"kind", "initial"⟩], .user "a" [], .user "b" [],
        .user "c" []]
      14 0 [] (fun tags => tags.contains (⟨"kind", "initial"⟩ : Tag))
      [.system "s" [⟨"kind", "initial"⟩], .user "b" [], .user "c" []]
      (by decide) (by decide)

end Lalia
